import Mathlib

/-!
Verification of the SpeedyReader RSVP reading engine.

Shallow embedding of the core algorithmic content:
* the tokenizer (`Reader` useEffect: `text.trim().split(/\s+/).filter(w => w.length > 0)`),
* the duration model (`calculateDelay` in `Reader`),
* the pivot resolver (the `useMemo` in `WordDisplay`),
* the playback scheduler operations (`togglePlay`, `reset`, `handleSpeedChange`,
  `handleFontSizeChange`, the progress-bar seek handler, and `step`),
* the text-transform handlers of `InputArea` (`handleSummarize`, `handleOptimize`,
  `handleGenerateStory`), with the external generative-text collaborator modelled
  as an abstract outcome (success with replacement text, or failure).

Strings are modelled as `List Char`; JavaScript number arithmetic is modelled
exactly over `ℚ` (all constants in the source are short decimals) and array
indices over `ℤ`/`ℕ`.
-/

/-- Whitespace test: a character matched by the JavaScript regex class `\s`
(restricted to the ASCII whitespace characters: space, tab, newline, carriage
return, form feed, vertical tab). -/
def isWs (c : Char) : Bool :=
  c = ' ' || c = '\t' || c = '\n' || c = '\r' || c = '\x0c' || c = '\x0b'

/-- Accumulator worker for the tokenizer: scans the text, collecting the
current non-whitespace run (reversed) in `acc` and emitting it whenever a
whitespace character or the end of the input is reached. -/
def tokenizeAux : List Char → List Char → List (List Char)
  | [], acc => if acc = [] then [] else [acc.reverse]
  | c :: cs, acc =>
    if isWs c then
      (if acc = [] then tokenizeAux cs [] else acc.reverse :: tokenizeAux cs [])
    else
      tokenizeAux cs (c :: acc)

/-- The tokenizer of `Reader`:
`text.trim().split(/\s+/).filter(w => w.length > 0)`, i.e. the ordered list of
maximal non-whitespace runs of the input. -/
def tokenize (s : List Char) : List (List Char) :=
  tokenizeAux s []

/-- Digit test: the JavaScript regex `/\d/.test(word)`, true when the word
contains a decimal digit `0`–`9`. -/
def hasDigit (w : List Char) : Bool :=
  w.any fun c => '0' ≤ c && c ≤ '9'

/-- Last character of a word, as computed by `word.slice(-1)`; the default is
irrelevant because every use is guarded by non-emptiness. -/
def lastCharD (w : List Char) : Char :=
  w.getLastD ' '

/-- Length-penalty factor of the duration model, as a standalone multiplier:
`1 + min((length-6)*0.1, 1.0)` for words longer than 6 characters, `0.9` for
words shorter than 3 characters, `1` otherwise. -/
def lengthFactor (w : List Char) : ℚ :=
  if 6 < w.length then 1 + min (((w.length : ℚ) - 6) * (1/10)) 1
  else if w.length < 3 then 9/10
  else 1

/-- Numeric-content factor of the duration model: `1.3` when the word contains
a decimal digit, `1` otherwise. -/
def digitFactor (w : List Char) : ℚ :=
  if hasDigit w then 13/10 else 1

/-- Terminal-punctuation factor of the duration model, first match wins:
`2.2` for sentence-final punctuation or an embedded newline, `1.5` for clause
punctuation, `1.2` for a closing quote or parenthesis, `1` otherwise. -/
def terminalFactor (w : List Char) : ℚ :=
  if lastCharD w ∈ ['.', '!', '?'] || w.contains '\n' then 11/5
  else if lastCharD w ∈ [',', ';', ':', '-'] then 3/2
  else if lastCharD w ∈ ['"', ')'] then 6/5
  else 1

/-- The duration model `calculateDelay` of `Reader`, transcribed statement by
statement: base delay `60000 / wpm`, then the sequential multiplicative
adjustments for length, numeric content and terminal punctuation. -/
def calculateDelay (wpm : ℚ) (word : List Char) : ℚ :=
  if word = [] then 60000 / wpm
  else
    let baseDelay : ℚ := 60000 / wpm
    let d1 : ℚ :=
      if 6 < word.length then
        baseDelay * (1 + min (((word.length : ℚ) - 6) * (1/10)) 1)
      else if word.length < 3 then baseDelay * (9/10)
      else baseDelay
    let d2 : ℚ := if hasDigit word then d1 * (13/10) else d1
    let d3 : ℚ :=
      if lastCharD word ∈ ['.', '!', '?'] || word.contains '\n' then d2 * (11/5)
      else if lastCharD word ∈ [',', ';', ':', '-'] then d2 * (3/2)
      else if lastCharD word ∈ ['"', ')'] then d2 * (6/5)
      else d2
    d3

/-- Pivot index of the `WordDisplay` ORP computation, as a function of the
word length: the ladder of length ranges, with the generic fallback
`Math.floor((len - 1) * 0.35)` for long words (exact over ℚ for every length
in the spec's stated 0–50 range). -/
def pivotIndex (len : ℕ) : ℕ :=
  if len = 1 then 0
  else if 2 ≤ len ∧ len ≤ 5 then 1
  else if 6 ≤ len ∧ len ≤ 9 then 2
  else if 10 ≤ len ∧ len ≤ 13 then 3
  else (len - 1) * 35 / 100

/-- The pivot split of `WordDisplay`: for the empty word all fields are empty;
otherwise `left = word.slice(0, pivotIndex)`, `pivot = word[pivotIndex]`
(one character) and `right = word.slice(pivotIndex + 1)`. -/
def resolvePivot (word : List Char) : List Char × List Char × List Char :=
  if word = [] then ([], [], [])
  else
    let i := pivotIndex word.length
    (word.take i, (word.drop i).take 1, word.drop (i + 1))

/-- The playback scheduler state owned by `Reader`: the token sequence, the
current index, the playing flag, and the settings (wpm, font size). -/
structure PlaybackState where
  tokens : List (List Char)
  position : ℤ
  isPlaying : Bool
  wpm : ℚ
  fontSize : ℚ
deriving Repr, DecidableEq

/-- The `togglePlay` handler: `setIsPlaying(!isPlaying)`. -/
def togglePlay (st : PlaybackState) : PlaybackState :=
  { st with isPlaying := !st.isPlaying }

/-- The `reset` handler: `setIsPlaying(false); setCurrentIndex(0)`. -/
def reset (st : PlaybackState) : PlaybackState :=
  { st with isPlaying := false, position := 0 }

/-- The `handleSpeedChange` handler: `wpm := Math.max(50, wpm + delta)`. -/
def handleSpeedChange (delta : ℚ) (st : PlaybackState) : PlaybackState :=
  { st with wpm := max 50 (st.wpm + delta) }

/-- The `handleFontSizeChange` handler:
`fontSize := Math.max(1, Math.min(8, fontSize + delta))`. -/
def handleFontSizeChange (delta : ℚ) (st : PlaybackState) : PlaybackState :=
  { st with fontSize := max 1 (min 8 (st.fontSize + delta)) }

/-- The progress-bar click handler (seek):
`setCurrentIndex(Math.floor(p * words.length))` with the click fraction `p`;
`isPlaying` is not touched. -/
def seek (p : ℚ) (st : PlaybackState) : PlaybackState :=
  { st with position := ⌊p * (st.tokens.length : ℚ)⌋ }

/-- The `step` callback fired when the current token's delay elapses:
`if (prev >= words.length - 1) { setIsPlaying(false); return prev; }
return prev + 1;`. -/
def step (st : PlaybackState) : PlaybackState :=
  if st.position ≥ (st.tokens.length : ℤ) - 1 then
    { st with isPlaying := false }
  else
    { st with position := st.position + 1 }

/-- Outcome of one call to the external generative-text collaborator: either
replacement text or a failure (rejected promise / missing API key). -/
inductive TransformOutcome where
  | ok (replacement : List Char)
  | failure
deriving Repr, DecidableEq

/-- The `InputArea` component state: current text, the "currently generating"
guard, and the surfaced error message (if any). -/
structure InputState where
  text : List Char
  isGenerating : Bool
  error : Option String
deriving Repr, DecidableEq

/-- The `handleSummarize` handler of `InputArea`: early return on empty text;
otherwise on success the text is replaced and the error cleared, on failure
the text is kept and an error message is surfaced; either way the generating
guard is released by the `finally` block. -/
def handleSummarize (st : InputState) (outcome : TransformOutcome) : InputState :=
  if st.text = [] then st
  else
    match outcome with
    | .ok s => { text := s, isGenerating := false, error := none }
    | .failure =>
      { st with isGenerating := false, error := some "Failed to summarize. Check API key." }

/-- The `handleOptimize` handler of `InputArea`, same shape as
`handleSummarize` with its own error message. -/
def handleOptimize (st : InputState) (outcome : TransformOutcome) : InputState :=
  if st.text = [] then st
  else
    match outcome with
    | .ok s => { text := s, isGenerating := false, error := none }
    | .failure =>
      { st with isGenerating := false, error := some "Failed to optimize. Check API key." }

/-- The `handleGenerateStory` handler of `InputArea`: no text guard; on
success the generated story replaces the text, on failure the text is kept
and an error message is surfaced. -/
def handleGenerateStory (st : InputState) (outcome : TransformOutcome) : InputState :=
  match outcome with
  | .ok s => { text := s, isGenerating := false, error := none }
  | .failure =>
    { st with isGenerating := false, error := some "Failed to generate text. Check API key." }

/-! ### Tokenizer lemmas -/

/-- Every token emitted by the worker is nonempty and whitespace-free,
provided the running accumulator is whitespace-free. -/
lemma tokenizeAux_token_prop (s : List Char) :
    ∀ acc, (∀ c ∈ acc, isWs c = false) →
      ∀ t ∈ tokenizeAux s acc, t ≠ [] ∧ ∀ c ∈ t, isWs c = false := by
  induction s with
  | nil =>
    intro acc hacc t ht
    simp only [tokenizeAux] at ht
    split at ht
    · simp at ht
    · rename_i hne
      simp only [List.mem_singleton] at ht
      subst ht
      exact ⟨by simpa using hne, fun c hc => hacc c (List.mem_reverse.mp hc)⟩
  | cons c cs ih =>
    intro acc hacc t ht
    simp only [tokenizeAux] at ht
    split at ht
    · split at ht
      · exact ih [] (by simp) t ht
      · rename_i hne
        rcases List.mem_cons.mp ht with h | h
        · subst h
          exact ⟨by simpa using hne, fun x hx => hacc x (List.mem_reverse.mp hx)⟩
        · exact ih [] (by simp) t h
    · rename_i hc
      refine ih (c :: acc) ?_ t ht
      intro x hx
      rcases List.mem_cons.mp hx with h | h
      · subst h; simpa using hc
      · exact hacc x h

/-- Concatenating the emitted tokens recovers the pending accumulator followed
by the non-whitespace characters of the remaining input, in order. -/
lemma tokenizeAux_flatten (s : List Char) :
    ∀ acc, (tokenizeAux s acc).flatten
      = acc.reverse ++ s.filter (fun c => !isWs c) := by
  induction s with
  | nil =>
    intro acc
    simp only [tokenizeAux]
    split
    · rename_i h; subst h; simp
    · simp
  | cons c cs ih =>
    intro acc
    simp only [tokenizeAux]
    by_cases hc : isWs c
    · rw [if_pos hc]
      by_cases ha : acc = []
      · rw [if_pos ha]; subst ha
        simp [ih, List.filter_cons, hc]
      · rw [if_neg ha]
        simp [List.flatten_cons, ih, List.filter_cons, hc]
    · rw [if_neg hc]
      rw [ih (c :: acc)]
      simp [List.filter_cons, hc]

/-- A whitespace character splits the tokenization: the tokens of
`a ++ c :: b` are the tokens of `a` followed by the tokens of `b`. -/
lemma tokenizeAux_append_ws (c : Char) (hc : isWs c = true) (b : List Char) :
    ∀ (a acc : List Char),
      tokenizeAux (a ++ c :: b) acc = tokenizeAux a acc ++ tokenizeAux b [] := by
  intro a
  induction a with
  | nil =>
    intro acc
    simp only [List.nil_append, tokenizeAux, hc, if_true]
    by_cases ha : acc = []
    · rw [if_pos ha, if_pos ha]; simp
    · rw [if_neg ha, if_neg ha]; simp
  | cons d a' ih =>
    intro acc
    simp only [List.cons_append, tokenizeAux, List.append_eq]
    by_cases hd : isWs d
    · rw [if_pos hd, if_pos hd]
      by_cases ha : acc = []
      · rw [if_pos ha, if_pos ha, ih]
      · rw [if_neg ha, if_neg ha, ih]; simp
    · rw [if_neg hd, if_neg hd, ih]

/-- A nonempty run of non-whitespace characters tokenizes to itself appended
to the pending accumulator. -/
lemma tokenizeAux_all_nonWs (t : List Char) :
    ∀ acc, (∀ c ∈ t, isWs c = false) → (acc ≠ [] ∨ t ≠ []) →
      tokenizeAux t acc = [acc.reverse ++ t] := by
  induction t with
  | nil =>
    intro acc _ hne
    have ha : acc ≠ [] := by
      rcases hne with h | h
      · exact h
      · exact absurd rfl h
    simp [tokenizeAux, ha]
  | cons c cs ih =>
    intro acc hnw _
    have hc : isWs c = false := hnw c (List.mem_cons_self c cs)
    simp only [tokenizeAux, hc]
    rw [if_neg (by simp)]
    rw [ih (c :: acc) (fun x hx => hnw x (List.mem_cons_of_mem c hx)) (Or.inl (by simp))]
    simp

/-- C7: the tokenizer is a pure total function that splits its input on runs
of whitespace (space, tab, newline uniformly), never produces an empty token,
preserves source order (concatenating the tokens yields exactly the
non-whitespace characters of the input, in order), and returns the empty
sequence on empty or whitespace-only input. -/
theorem tokenize_total_spec :
    (∀ s t, t ∈ tokenize s → t ≠ [] ∧ ∀ c ∈ t, isWs c = false)
    ∧ (∀ s, (tokenize s).flatten = s.filter fun c => !isWs c)
    ∧ (∀ s, (∀ c ∈ s, isWs c = true) → tokenize s = [])
    ∧ (∀ a c b, isWs c = true → tokenize (a ++ c :: b) = tokenize a ++ tokenize b)
    ∧ (∀ t, t ≠ [] → (∀ c ∈ t, isWs c = false) → tokenize t = [t]) := by
  refine ⟨?_, ?_, ?_, ?_, ?_⟩
  · intro s t ht
    exact tokenizeAux_token_prop s [] (by simp) t ht
  · intro s
    simpa [tokenize] using tokenizeAux_flatten s []
  · intro s hws
    have hf : (tokenize s).flatten = [] := by
      have h := tokenizeAux_flatten s []
      simp only [List.reverse_nil, List.nil_append] at h
      simp only [tokenize]
      rw [h, List.filter_eq_nil_iff]
      intro c hc
      simp [hws c hc]
    cases htk : tokenize s with
    | nil => rfl
    | cons t ts =>
      exfalso
      have hmem : t ∈ tokenize s := by rw [htk]; exact List.mem_cons_self t ts
      have hne := (tokenizeAux_token_prop s [] (by simp) t hmem).1
      rw [htk] at hf
      simp only [List.flatten_cons] at hf
      exact hne (List.append_eq_nil.mp hf).1
  · intro a c b hc
    simpa [tokenize] using tokenizeAux_append_ws c hc b a []
  · intro t hne hnw
    simpa [tokenize] using tokenizeAux_all_nonWs t [] hnw (Or.inr hne)

/-- Witness for C7 at a concrete input: `"hi 5"` contains the token `"hi"`,
which is nonempty and whitespace-free. -/
theorem tokenize_total_spec_witness :
    (['h', 'i'] ∈ tokenize ['h', 'i', ' ', '5'])
    ∧ (['h', 'i'] ≠ [] ∧ ∀ c ∈ ['h', 'i'], isWs c = false) :=
  ⟨by decide, tokenize_total_spec.1 ['h', 'i', ' ', '5'] ['h', 'i'] (by decide)⟩

/-- C10: every token produced by the tokenizer is whitespace-free, hence
contains no newline; therefore the duration model's sentence-end condition
degenerates on real tokens to a test of the last character, and the `2.2`
factor fires exactly when the last character is `.`, `!` or `?`. -/
theorem tokenize_token_no_newline (s t : List Char) (ht : t ∈ tokenize s) :
    (∀ c ∈ t, isWs c = false)
    ∧ t.contains '\n' = false
    ∧ (terminalFactor t = 11/5 ↔ lastCharD t ∈ ['.', '!', '?']) := by
  obtain ⟨hne, hnw⟩ := tokenizeAux_token_prop s [] (by simp) t ht
  have hmemn : ¬ '\n' ∈ t := fun h => absurd (hnw '\n' h) (by decide)
  have hnl : t.contains '\n' = false := by simpa using hmemn
  refine ⟨hnw, hnl, ?_⟩
  rw [terminalFactor, hnl, Bool.or_false]
  by_cases hmem : lastCharD t ∈ ['.', '!', '?']
  · rw [if_pos (by simpa using hmem)]
    simp [hmem]
  · rw [if_neg (by simpa using hmem)]
    split_ifs <;> simp [hmem] <;> norm_num

/-- Witness for C10 at a concrete input: the token `"ok!"` of the text
`"ok!"` is whitespace-free, newline-free, and receives the `2.2` factor
exactly because it ends in `!`. -/
theorem tokenize_token_no_newline_witness :
    (['o', 'k', '!'] ∈ tokenize ['o', 'k', '!'])
    ∧ ((∀ c ∈ ['o', 'k', '!'], isWs c = false)
       ∧ List.contains ['o', 'k', '!'] '\n' = false
       ∧ (terminalFactor ['o', 'k', '!'] = 11/5
          ↔ lastCharD ['o', 'k', '!'] ∈ ['.', '!', '?'])) :=
  ⟨by decide, tokenize_token_no_newline ['o', 'k', '!'] ['o', 'k', '!'] (by decide)⟩

/-! ### Duration model -/

/-- C1: for every token and every positive wpm, the computed delay is exactly
the base `60000 / wpm` multiplied by the stacking length, numeric and
first-match-wins terminal factors, and the result is strictly positive. -/
theorem calculateDelay_factors (word : List Char) (hw : word ≠ [])
    (wpm : ℚ) (hwpm : 0 < wpm) :
    calculateDelay wpm word
      = 60000 / wpm * lengthFactor word * digitFactor word * terminalFactor word
    ∧ 0 < calculateDelay wpm word := by
  have hbase : 0 < (60000 : ℚ) / wpm := div_pos (by norm_num) hwpm
  have hlf : 0 < lengthFactor word := by
    rw [lengthFactor]
    split_ifs with h1 h2
    · have h6 : (6 : ℚ) < (word.length : ℚ) := by exact_mod_cast h1
      have hmin : (0 : ℚ) < min (((word.length : ℚ) - 6) * (1/10)) 1 := by
        refine lt_min ?_ (by norm_num)
        have : (0 : ℚ) < (word.length : ℚ) - 6 := by linarith
        exact mul_pos this (by norm_num)
      linarith
    · norm_num
    · norm_num
  have hdf : 0 < digitFactor word := by
    rw [digitFactor]; split_ifs <;> norm_num
  have htf : 0 < terminalFactor word := by
    rw [terminalFactor]; split_ifs <;> norm_num
  have heq : calculateDelay wpm word
      = 60000 / wpm * lengthFactor word * digitFactor word * terminalFactor word := by
    simp only [calculateDelay, lengthFactor, digitFactor, terminalFactor, hw, if_false,
      Bool.false_eq_true, ite_false]
    split_ifs <;> ring
  exact ⟨heq, by
    rw [heq]
    exact mul_pos (mul_pos (mul_pos hbase hlf) hdf) htf⟩

/-- Witness for C1 at the concrete token `"cats!"` and wpm 300. -/
theorem calculateDelay_factors_witness :
    ((['c', 'a', 't', 's', '!'] : List Char) ≠ [] ∧ (0 : ℚ) < 300)
    ∧ (calculateDelay 300 ['c', 'a', 't', 's', '!']
        = 60000 / 300 * lengthFactor ['c', 'a', 't', 's', '!']
          * digitFactor ['c', 'a', 't', 's', '!']
          * terminalFactor ['c', 'a', 't', 's', '!']
      ∧ 0 < calculateDelay 300 ['c', 'a', 't', 's', '!']) :=
  ⟨⟨by decide, by norm_num⟩,
    calculateDelay_factors ['c', 'a', 't', 's', '!'] (by decide) 300 (by norm_num)⟩

/-! ### Pivot resolver -/

/-- The pivot index stays strictly inside every nonempty word. -/
lemma pivotIndex_lt (len : ℕ) (h : 0 < len) : pivotIndex len < len := by
  rw [pivotIndex]
  split_ifs with h1 h2 h3 h4
  · omega
  · omega
  · omega
  · omega
  · have hm : (len - 1) * 35 < 100 * len := by omega
    exact Nat.div_lt_of_lt_mul hm

/-- C5: the pivot split is exact: for a nonempty token,
`left ++ pivot ++ right` reassembles the token, the pivot is a single
character, and the pivot index is in bounds; the empty token yields the
all-empty split. -/
theorem resolvePivot_split (word : List Char) :
    (word = [] → resolvePivot word = ([], [], []))
    ∧ (word ≠ [] →
        (resolvePivot word).1 ++ (resolvePivot word).2.1 ++ (resolvePivot word).2.2
          = word
        ∧ (resolvePivot word).2.1.length = 1
        ∧ pivotIndex word.length < word.length) := by
  constructor
  · intro h
    simp [resolvePivot, h]
  · intro h
    have hlen : 0 < word.length := List.length_pos.mpr h
    have hi : pivotIndex word.length < word.length := pivotIndex_lt word.length hlen
    simp only [resolvePivot, if_neg h]
    set i := pivotIndex word.length with hidef
    have hdrop : word.drop i = word.get ⟨i, hi⟩ :: word.drop (i + 1) :=
      List.drop_eq_getElem_cons hi
    refine ⟨?_, ?_, hi⟩
    · calc
        word.take i ++ (word.drop i).take 1 ++ word.drop (i + 1)
            = word.take i ++ (word.get ⟨i, hi⟩ :: word.drop (i + 1)) := by
              rw [hdrop]; simp
        _ = word.take i ++ word.drop i := by rw [hdrop]
        _ = word := List.take_append_drop i word
    · rw [hdrop]
      simp only [List.take_succ_cons, List.take_zero, List.length_cons, List.length_nil]

/-- Witness for C5 at the concrete token `"read"`. -/
theorem resolvePivot_split_witness :
    (resolvePivot ['r', 'e', 'a', 'd']).1 ++ (resolvePivot ['r', 'e', 'a', 'd']).2.1
        ++ (resolvePivot ['r', 'e', 'a', 'd']).2.2 = ['r', 'e', 'a', 'd']
    ∧ (resolvePivot ['r', 'e', 'a', 'd']).2.1.length = 1
    ∧ pivotIndex (['r', 'e', 'a', 'd'] : List Char).length
        < (['r', 'e', 'a', 'd'] : List Char).length :=
  (resolvePivot_split ['r', 'e', 'a', 'd']).2 (by decide)

/-- C6: for every nonempty token the pivot index depends on the length alone,
following the fixed table (0 for length 1, 1 for 2–5, 2 for 6–9, 3 for 10–13,
`floor((length-1)*0.35)` for length ≥ 14), and the split fields are the
substring before the index, the single character at it, and the remainder. -/
theorem pivotIndex_table (word : List Char) (h : word ≠ []) :
    (word.length = 1 → pivotIndex word.length = 0)
    ∧ (2 ≤ word.length → word.length ≤ 5 → pivotIndex word.length = 1)
    ∧ (6 ≤ word.length → word.length ≤ 9 → pivotIndex word.length = 2)
    ∧ (10 ≤ word.length → word.length ≤ 13 → pivotIndex word.length = 3)
    ∧ (14 ≤ word.length →
        ((pivotIndex word.length : ℤ) = ⌊((word.length : ℚ) - 1) * (35/100)⌋))
    ∧ resolvePivot word
        = (word.take (pivotIndex word.length),
           (word.drop (pivotIndex word.length)).take 1,
           word.drop (pivotIndex word.length + 1)) := by
  refine ⟨?_, ?_, ?_, ?_, ?_, ?_⟩
  · intro h1
    rw [pivotIndex]
    split_ifs
    all_goals omega
  · intro h1 h2
    rw [pivotIndex]; split_ifs <;> omega
  · intro h1 h2
    rw [pivotIndex]; split_ifs <;> omega
  · intro h1 h2
    rw [pivotIndex]; split_ifs <;> omega
  · intro h14
    have hfall : pivotIndex word.length = (word.length - 1) * 35 / 100 := by
      rw [pivotIndex]; split_ifs <;> omega
    have hcast : ((word.length : ℚ) - 1) * (35/100)
        = ((((word.length - 1) * 35 : ℕ) : ℤ) : ℚ) / ((100 : ℕ) : ℚ) := by
      push_cast [Nat.cast_sub (show 1 ≤ word.length by omega)]
      ring
    rw [hfall, hcast, Rat.floor_intCast_div_natCast]
    exact Int.natCast_div _ _
  · simp [resolvePivot, h]

/-- Witness for C6 at the concrete 14-character token
`"comprehensions"`, whose pivot index is `floor(13 * 0.35) = 4`. -/
theorem pivotIndex_table_witness :
    ((['c', 'o', 'm', 'p', 'r', 'e', 'h', 'e', 'n', 's', 'i', 'o', 'n', 's']
        : List Char) ≠ [])
    ∧ (14 ≤ (['c', 'o', 'm', 'p', 'r', 'e', 'h', 'e', 'n', 's', 'i', 'o', 'n', 's']
        : List Char).length
      ∧ ((pivotIndex (['c', 'o', 'm', 'p', 'r', 'e', 'h', 'e', 'n', 's', 'i', 'o', 'n', 's']
            : List Char).length : ℤ)
          = ⌊(((['c', 'o', 'm', 'p', 'r', 'e', 'h', 'e', 'n', 's', 'i', 'o', 'n', 's']
              : List Char).length : ℚ) - 1) * (35/100)⌋)) :=
  ⟨by decide,   by decide,
    (pivotIndex_table
      ['c', 'o', 'm', 'p', 'r', 'e', 'h', 'e', 'n', 's', 'i', 'o', 'n', 's']
      (by decide)).2.2.2.2.1 (by decide)⟩

/-! ### Playback scheduler -/

/-- Position bounds of a scheduler state: the invariant part that every
operation does preserve. -/
def posInBounds (st : PlaybackState) : Prop :=
  0 ≤ st.position ∧ st.position ≤ (st.tokens.length : ℤ)

instance (st : PlaybackState) : Decidable (posInBounds st) :=
  inferInstanceAs (Decidable (_ ∧ _))

/-- A one-token state, playing at the first (and last) token: the state in
which the automatic advance fires for the final time. -/
def lastTokenPlaying : PlaybackState :=
  { tokens := [['a']], position := 0, isPlaying := true, wpm := 350, fontSize := 4 }

/-- Counterexample to C2 as stated: on a one-token sequence, the final
automatic advance leaves the position at `0 = length - 1` and merely clears
`isPlaying`; the position does not become `length(tokens)`. -/
theorem step_finish_cex :
    ¬ ((step lastTokenPlaying).position = (lastTokenPlaying.tokens.length : ℤ)
       ∧ (step lastTokenPlaying).isPlaying = false) := by
  decide

/-- C2 (amended): while Playing with `position < length(tokens)`, the
automatic advance moves to `position + 1` and stays Playing when
`position + 1 < length(tokens)`; otherwise it clears `isPlaying` and leaves
the position unchanged (at `length - 1`), rather than setting it to
`length(tokens)`. -/
theorem step_advance (st : PlaybackState) (hp : st.isPlaying = true)
    (hlt : st.position < (st.tokens.length : ℤ)) :
    (st.position + 1 < (st.tokens.length : ℤ) →
      step st = { st with position := st.position + 1 }
      ∧ (step st).isPlaying = true)
    ∧ (¬ st.position + 1 < (st.tokens.length : ℤ) →
      (step st).isPlaying = false ∧ (step st).position = st.position) := by
  constructor
  · intro h
    have hcond : ¬ st.position ≥ (st.tokens.length : ℤ) - 1 := by omega
    unfold step
    rw [if_neg hcond]
    exact ⟨rfl, hp⟩
  · intro h
    have hcond : st.position ≥ (st.tokens.length : ℤ) - 1 := by omega
    unfold step
    rw [if_pos hcond]
    exact ⟨rfl, rfl⟩

/-- A two-token state, playing at the first token. -/
def twoTokenPlaying : PlaybackState :=
  { tokens := [['a'], ['b']], position := 0, isPlaying := true, wpm := 350, fontSize := 4 }

/-- Witness for the amended C2: on a two-token sequence at position 0, the
automatic advance moves to position 1 and keeps playing. -/
theorem step_advance_witness :
    (twoTokenPlaying.isPlaying = true
      ∧ twoTokenPlaying.position < (twoTokenPlaying.tokens.length : ℤ)
      ∧ twoTokenPlaying.position + 1 < (twoTokenPlaying.tokens.length : ℤ))
    ∧ (step twoTokenPlaying
        = { twoTokenPlaying with position := twoTokenPlaying.position + 1 }
      ∧ (step twoTokenPlaying).isPlaying = true) :=
  ⟨⟨by decide, by decide, by decide⟩,
    (step_advance twoTokenPlaying (by decide) (by decide)).1 (by decide)⟩

/-- A one-token state, playing at its only token, used to exhibit a seek to
the very end of the progress bar while Playing. -/
def playingBeforeSeek : PlaybackState :=
  { tokens := [['a']], position := 0, isPlaying := true, wpm := 350, fontSize := 4 }

/-- Counterexample to C3 as stated: from a state satisfying the full
invariant, the seek operation with fraction 1 yields
`position = length(tokens)` with `isPlaying` still `true`, so the clause
"`position == len(tokens)` forces `isPlaying == false`" is not preserved. -/
theorem seek_invariant_cex :
    (0 ≤ playingBeforeSeek.position
      ∧ playingBeforeSeek.position ≤ (playingBeforeSeek.tokens.length : ℤ)
      ∧ (playingBeforeSeek.position = (playingBeforeSeek.tokens.length : ℤ)
          → playingBeforeSeek.isPlaying = false))
    ∧ ¬ ((seek 1 playingBeforeSeek).position
          = ((seek 1 playingBeforeSeek).tokens.length : ℤ)
        → (seek 1 playingBeforeSeek).isPlaying = false) := by
  have hpos : (seek 1 playingBeforeSeek).position = 1 := by
    simp [seek, playingBeforeSeek]
  refine ⟨by decide, ?_⟩
  intro hcl
  exact absurd (hcl (by rw [hpos]; decide)) (by decide)

/-- C3 (amended): every playback operation preserves
`0 ≤ position ≤ length(tokens)` (for seek, given a fraction in `[0, 1]`);
the stronger clause that `position = length(tokens)` forces
`isPlaying = false` is not preserved, because seek never touches
`isPlaying`. -/
theorem playback_ops_preserve_bounds (st : PlaybackState)
    (h0 : 0 ≤ st.position) (h1 : st.position ≤ (st.tokens.length : ℤ)) :
    posInBounds (togglePlay st)
    ∧ posInBounds (reset st)
    ∧ (∀ d, posInBounds (handleSpeedChange d st))
    ∧ (∀ d, posInBounds (handleFontSizeChange d st))
    ∧ (∀ f, 0 ≤ f → f ≤ 1 → posInBounds (seek f st))
    ∧ posInBounds (step st) := by
  refine ⟨⟨h0, h1⟩, ⟨le_refl 0, Int.natCast_nonneg _⟩,
    fun d => ⟨h0, h1⟩, fun d => ⟨h0, h1⟩, ?_, ?_⟩
  · intro f hf0 hf1
    constructor
    · exact Int.floor_nonneg.mpr (mul_nonneg hf0 (Nat.cast_nonneg _))
    · have h2 : f * (st.tokens.length : ℚ) ≤ (st.tokens.length : ℚ) :=
        mul_le_of_le_one_left (Nat.cast_nonneg _) hf1
      have h3 := Int.floor_le_floor h2
      rwa [Int.floor_natCast] at h3
  · simp only [step]
    split_ifs with hcond
    · exact ⟨h0, h1⟩
    · refine ⟨?_, ?_⟩
      · show (0 : ℤ) ≤ st.position + 1
        omega
      · show st.position + 1 ≤ (st.tokens.length : ℤ)
        omega

/-- A two-token paused state at the second token, satisfying the bounds. -/
def pausedMidway : PlaybackState :=
  { tokens := [['a'], ['b']], position := 1, isPlaying := false, wpm := 350, fontSize := 4 }

/-- Witness for the amended C3: from an in-bounds state, seeking to the
middle of the progress bar lands in bounds. -/
theorem playback_ops_preserve_bounds_witness :
    (0 ≤ pausedMidway.position
      ∧ pausedMidway.position ≤ (pausedMidway.tokens.length : ℤ)
      ∧ (0 : ℚ) ≤ 1/2 ∧ (1/2 : ℚ) ≤ 1)
    ∧ posInBounds (seek (1/2) pausedMidway) :=
  ⟨⟨by decide, by decide, by norm_num, by norm_num⟩,
    (playback_ops_preserve_bounds pausedMidway (by decide) (by decide)).2.2.2.2.1
      (1/2) (by norm_num) (by norm_num)⟩

/-- The one-token Finished state: position equals the token count and
playback is stopped. -/
def finishedState : PlaybackState :=
  { tokens := [['a']], position := 1, isPlaying := false, wpm := 350, fontSize := 4 }

/-- Counterexample to C4 as stated: pressing play in the Finished state is
not a no-op — the toggle sets `isPlaying` to `true`. -/
theorem togglePlay_finished_cex :
    finishedState.position = (finishedState.tokens.length : ℤ)
    ∧ finishedState.isPlaying = false
    ∧ (togglePlay finishedState).isPlaying = true := by
  decide

/-- C4 (amended): the play/pause control unconditionally flips `isPlaying`
and leaves the position and tokens unchanged; in particular in the Finished
state it turns `isPlaying` on instead of being a no-op. -/
theorem togglePlay_flips (st : PlaybackState) :
    (togglePlay st).isPlaying = !st.isPlaying
    ∧ (togglePlay st).position = st.position
    ∧ (togglePlay st).tokens = st.tokens :=
  ⟨rfl, rfl, rfl⟩

/-- A ten-token idle state, for the spec's concrete seek example. -/
def tenTokenState : PlaybackState :=
  { tokens := [['a'], ['b'], ['c'], ['d'], ['e'], ['f'], ['g'], ['h'], ['i'], ['j']],
    position := 0, isPlaying := false, wpm := 350, fontSize := 4 }

/-- C8: for every fraction in `[0, 1]`, seek sets the position to
`floor(fraction * length(tokens))`, a value in `[0, length(tokens)]`, and
leaves `isPlaying` unchanged; on the ten-token sequence, fraction 0 gives
position 0 and fraction 1 gives position 10. -/
theorem seek_sets_floor (f : ℚ) (st : PlaybackState) (h0 : 0 ≤ f) (h1 : f ≤ 1) :
    (seek f st).position = ⌊f * (st.tokens.length : ℚ)⌋
    ∧ 0 ≤ (seek f st).position
    ∧ (seek f st).position ≤ (st.tokens.length : ℤ)
    ∧ (seek f st).isPlaying = st.isPlaying
    ∧ (seek 0 tenTokenState).position = 0
    ∧ (seek 1 tenTokenState).position = 10 := by
  refine ⟨rfl, ?_, ?_, rfl, ?_, ?_⟩
  · exact Int.floor_nonneg.mpr (mul_nonneg h0 (Nat.cast_nonneg _))
  · show ⌊f * (st.tokens.length : ℚ)⌋ ≤ (st.tokens.length : ℤ)
    have h2 : f * (st.tokens.length : ℚ) ≤ (st.tokens.length : ℚ) :=
      mul_le_of_le_one_left (Nat.cast_nonneg _) h1
    have h3 := Int.floor_le_floor h2
    rwa [Int.floor_natCast] at h3
  · simp [seek, tenTokenState]
  · simp [seek, tenTokenState]

/-- Witness for C8 at fraction `1/2` on the ten-token state: the position
becomes `floor(5) = 5` and the stated bounds and examples hold. -/
theorem seek_sets_floor_witness :
    ((0 : ℚ) ≤ 1/2 ∧ (1/2 : ℚ) ≤ 1)
    ∧ ((seek (1/2) tenTokenState).position
        = ⌊(1/2 : ℚ) * (tenTokenState.tokens.length : ℚ)⌋
      ∧ 0 ≤ (seek (1/2) tenTokenState).position
      ∧ (seek (1/2) tenTokenState).position ≤ (tenTokenState.tokens.length : ℤ)
      ∧ (seek (1/2) tenTokenState).isPlaying = tenTokenState.isPlaying
      ∧ (seek 0 tenTokenState).position = 0
      ∧ (seek 1 tenTokenState).position = 10) :=
  ⟨⟨by norm_num, by norm_num⟩,
    seek_sets_floor (1/2) tenTokenState (by norm_num) (by norm_num)⟩

/-! ### Text-transform error handling -/

/-- C9: whenever a text-transform collaborator call fails, the handler keeps
the current text unchanged, surfaces an error message, and releases the
generating guard so the user can retry; no partial application of the
transform is possible. -/
theorem transform_failure_keeps_text (st : InputState) :
    (st.text ≠ [] →
      ((handleSummarize st .failure).text = st.text
        ∧ (handleSummarize st .failure).error.isSome = true
        ∧ (handleSummarize st .failure).isGenerating = false)
      ∧ ((handleOptimize st .failure).text = st.text
        ∧ (handleOptimize st .failure).error.isSome = true
        ∧ (handleOptimize st .failure).isGenerating = false))
    ∧ ((handleGenerateStory st .failure).text = st.text
      ∧ (handleGenerateStory st .failure).error.isSome = true
      ∧ (handleGenerateStory st .failure).isGenerating = false) := by
  refine ⟨fun h => ⟨?_, ?_⟩, ?_⟩
  · simp [handleSummarize, h]
  · simp [handleOptimize, h]
  · simp [handleGenerateStory]

/-- The input-area state used for the C9 witness: nonempty text, a transform
in flight, no prior error. -/
def inputMidTransform : InputState :=
  { text := ['h', 'i'], isGenerating := true, error := none }

/-- Witness for C9 at a concrete state: a failed summarize and a failed
optimize both keep the text `"hi"`, surface an error, and stop generating. -/
theorem transform_failure_keeps_text_witness :
    (inputMidTransform.text ≠ [])
    ∧ (((handleSummarize inputMidTransform .failure).text = inputMidTransform.text
        ∧ (handleSummarize inputMidTransform .failure).error.isSome = true
        ∧ (handleSummarize inputMidTransform .failure).isGenerating = false)
      ∧ ((handleOptimize inputMidTransform .failure).text = inputMidTransform.text
        ∧ (handleOptimize inputMidTransform .failure).error.isSome = true
        ∧ (handleOptimize inputMidTransform .failure).isGenerating = false)) :=
  ⟨by decide, (transform_failure_keeps_text inputMidTransform).1 (by decide)⟩
